import Mathlib

/-
Verification development for the job_search repository.

The Python modules are shallowly embedded: pure functions become Lean
functions over List / String / Option, the MySQL tables become lists of
row structures, and the SQL statements become the corresponding list
transformations.  Numeric (float) salary values are modelled as rationals;
only order and equality of these values matter to the code under study.
The MD5 digest (hashlib, standard library) and the HTML sanitiser
(BeautifulSoup-based) are threaded as function parameters: the code under
study only pipes strings through them.
-/

set_option linter.unusedVariables false

namespace JobSearch

/-- Python whitespace characters recognised by str.strip / str.split. -/
def isPyWs (c : Char) : Bool :=
  c == ' ' || c == '\t' || c == '\n' || c == '\r' || c == Char.ofNat 11 || c == Char.ofNat 12

/-- Python str.strip() on both ends. -/
def pyStrip (s : String) : String :=
  String.mk (((s.toList.dropWhile isPyWs).reverse.dropWhile isPyWs).reverse)

/-- Python str.lower(), ASCII case folding (all strings in play are ASCII). -/
def pyLower (s : String) : String :=
  String.mk (s.toList.map Char.toLower)

/-- Python truthiness of an optional numeric value: None and 0 are falsy. -/
def truthyNum (o : Option ℚ) : Bool :=
  match o with
  | none => false
  | some v => v != 0

/-- job_scraper/models.py: the Job dataclass.  Field order and defaults follow
the source; date_scraped is an opaque string set by the caller. -/
structure Job where
  title : String
  company : String
  location : String
  description : String
  url : String
  source : String
  remote : String := "Unknown"
  salary_min : Option ℚ := none
  salary_max : Option ℚ := none
  salary_currency : String := ""
  job_type : String := ""
  experience_level : String := ""
  date_posted : String := ""
  tags : String := ""
  company_logo : String := ""
  date_scraped : String := ""
  job_id : String := ""
deriving DecidableEq, Repr

/-- Job._generate_id: md5 of source|url when url is truthy (non-empty),
else md5 of source|title|company. -/
def generate_id (md5 : String → String) (j : Job) : String :=
  md5 (if j.url ≠ "" then j.source ++ "|" ++ j.url
       else j.source ++ "|" ++ j.title ++ "|" ++ j.company)

/-- Job.__post_init__: derive job_id when unset, then strip the description
when it is truthy. -/
def postInit (md5 : String → String) (j : Job) : Job :=
  let j1 := if j.job_id = "" then { j with job_id := generate_id md5 j } else j
  if j1.description ≠ "" then { j1 with description := pyStrip j1.description } else j1

/-- Constructing a Job record = dataclass field assignment + __post_init__. -/
def mkJob (md5 : String → String) (j : Job) : Job :=
  postInit md5 j

theorem mkJob_job_id (md5 : String → String) (j : Job) (h0 : j.job_id = "") :
    (mkJob md5 j).job_id = generate_id md5 j := by
  unfold mkJob postInit
  simp [h0]
  split <;> rfl

theorem mkJob_salary_max (md5 : String → String) (j : Job) :
    (mkJob md5 j).salary_max = j.salary_max := by
  unfold mkJob postInit
  by_cases h : j.job_id = "" <;> simp only [h, if_true, if_false, ite_true, ite_false] <;>
    split <;> rfl

/-- Claim C1: a Job constructed without an explicit job_id derives it as the
hash of source|url when url is non-empty (else source|title|company), and
hence two records that agree on source and a non-empty url get equal ids. -/
theorem c1_job_id_content_hash (md5 : String → String) (r1 r2 : Job)
    (h1 : r1.job_id = "") (h2 : r2.job_id = "") :
    ((mkJob md5 r1).job_id =
      md5 (if r1.url ≠ "" then r1.source ++ "|" ++ r1.url
           else r1.source ++ "|" ++ r1.title ++ "|" ++ r1.company)) ∧
    (r1.source = r2.source → r1.url = r2.url → r1.url ≠ "" →
      (mkJob md5 r1).job_id = (mkJob md5 r2).job_id) := by
  constructor
  · rw [mkJob_job_id md5 r1 h1]; rfl
  · intro hs hu hne
    rw [mkJob_job_id md5 r1 h1, mkJob_job_id md5 r2 h2]
    unfold generate_id
    rw [hs, hu]
    have : r2.url ≠ "" := by rw [← hu]; exact hne
    simp [this]

/-- Witness for C1 at a concrete pair of records. -/
theorem c1_job_id_content_hash_witness :
    let j1 : Job := { title := "Dev", company := "Acme", location := "", description := "",
                      url := "https://x/y", source := "Remotive" }
    let j2 : Job := { title := "Engineer", company := "Other", location := "", description := "",
                      url := "https://x/y", source := "Remotive" }
    (mkJob id j1).job_id = "Remotive|https://x/y" ∧
    (mkJob id j1).job_id = (mkJob id j2).job_id := by
  intro j1 j2
  have h := c1_job_id_content_hash id j1 j2 rfl rfl
  exact ⟨by rw [h.1]; rfl, h.2 rfl rfl (by decide)⟩

/-- job_scraper/storage.py: one row of the jobs table, in the column order of
the INSERT statement in JobStorage.save_jobs. -/
structure DbRow where
  job_id : String
  title : String
  company : String
  location : String
  description : String
  url : String
  source : String
  remote : String
  salary_min : Option ℚ
  salary_max : Option ℚ
  salary_currency : String
  job_type : String
  experience_level : String
  date_posted : String
  date_scraped : String
  tags : String
  company_logo : String
deriving DecidableEq, Repr

/-- The value tuple save_jobs builds for one Job: every field is passed
through except the salaries, which use Python truthiness
(j.salary_min if j.salary_min else None), so 0 and None both store NULL. -/
def rowOfJob (j : Job) : DbRow :=
  { job_id := j.job_id, title := j.title, company := j.company, location := j.location,
    description := j.description, url := j.url, source := j.source, remote := j.remote,
    salary_min := if truthyNum j.salary_min then j.salary_min else none,
    salary_max := if truthyNum j.salary_max then j.salary_max else none,
    salary_currency := j.salary_currency, job_type := j.job_type,
    experience_level := j.experience_level, date_posted := j.date_posted,
    date_scraped := j.date_scraped, tags := j.tags, company_logo := j.company_logo }

/-- One INSERT IGNORE execution: skipped (rowcount 0) when a row with the same
job_id exists (unique key on job_id), else appended (rowcount 1). -/
def insertIgnore (db : List DbRow) (r : DbRow) : List DbRow × Nat :=
  if db.any (fun x => x.job_id == r.job_id) then (db, 0) else (db ++ [r], 1)

/-- JobStorage.save_jobs: execute the INSERT IGNORE per row, summing the
rowcounts; returns the updated table and the number actually written. -/
def save_jobs : List DbRow → List Job → List DbRow × Nat
  | db, [] => (db, 0)
  | db, j :: js =>
    let step := insertIgnore db (rowOfJob j)
    let rest := save_jobs step.1 js
    (rest.1, step.2 + rest.2)

def dbIds (db : List DbRow) : List String := db.map DbRow.job_id

def batchIds (jobs : List Job) : List String := jobs.map Job.job_id

/-- Row count of a table restricted to a set of job_ids. -/
def rowCountFor (db : List DbRow) (ids : List String) : Nat :=
  db.countP (fun r => decide (r.job_id ∈ ids))

theorem rowOfJob_job_id (j : Job) : (rowOfJob j).job_id = j.job_id := rfl

theorem insertIgnore_found (db : List DbRow) (r : DbRow)
    (h : r.job_id ∈ dbIds db) : insertIgnore db r = (db, 0) := by
  unfold insertIgnore
  have : db.any (fun x => x.job_id == r.job_id) = true := by
    rcases List.mem_map.mp h with ⟨x, hx, hxe⟩
    exact List.any_eq_true.mpr ⟨x, hx, by simp [hxe]⟩
  simp [this]

theorem insertIgnore_new (db : List DbRow) (r : DbRow)
    (h : r.job_id ∉ dbIds db) : insertIgnore db r = (db ++ [r], 1) := by
  unfold insertIgnore
  have : db.any (fun x => x.job_id == r.job_id) = false := by
    by_contra hc
    simp only [Bool.not_eq_false, List.any_eq_true, beq_iff_eq] at hc
    rcases hc with ⟨x, hx, hxe⟩
    exact h (List.mem_map.mpr ⟨x, hx, hxe⟩)
  simp [this]

theorem mem_dbIds_save_jobs (jobs : List Job) (db : List DbRow) (i : String) :
    i ∈ dbIds (save_jobs db jobs).1 ↔ i ∈ dbIds db ∨ i ∈ batchIds jobs := by
  induction jobs generalizing db with
  | nil => simp [save_jobs, batchIds]
  | cons j js ih =>
    by_cases h : j.job_id ∈ dbIds db
    · rw [show save_jobs db (j :: js) =
        (save_jobs db js |>.1, 0 + (save_jobs db js).2) from by
          simp [save_jobs, insertIgnore_found db (rowOfJob j) (by simpa [rowOfJob_job_id])]]
      simp only [ih, batchIds, List.map_cons, List.mem_cons]
      constructor
      · rintro (hd | ht)
        · exact Or.inl hd
        · exact Or.inr (Or.inr ht)
      · rintro (hd | he | ht)
        · exact Or.inl hd
        · exact Or.inl (he ▸ h)
        · exact Or.inr ht
    · rw [show save_jobs db (j :: js) =
        (save_jobs (db ++ [rowOfJob j]) js |>.1, 1 + (save_jobs (db ++ [rowOfJob j]) js).2)
        from by
          simp [save_jobs, insertIgnore_new db (rowOfJob j) (by simpa [rowOfJob_job_id])]]
      rw [ih]
      simp only [dbIds, batchIds, List.map_append, List.mem_append, List.map_cons,
        List.map_nil, List.mem_singleton, List.mem_cons, rowOfJob_job_id,
        List.not_mem_nil, or_false]
      tauto

theorem nodup_dbIds_save_jobs (jobs : List Job) (db : List DbRow)
    (h : (dbIds db).Nodup) : (dbIds (save_jobs db jobs).1).Nodup := by
  induction jobs generalizing db with
  | nil => simpa [save_jobs]
  | cons j js ih =>
    by_cases hj : j.job_id ∈ dbIds db
    · rw [show save_jobs db (j :: js) =
        (save_jobs db js |>.1, 0 + (save_jobs db js).2) from by
          simp [save_jobs, insertIgnore_found db (rowOfJob j) (by simpa [rowOfJob_job_id])]]
      exact ih db h
    · rw [show save_jobs db (j :: js) =
        (save_jobs (db ++ [rowOfJob j]) js |>.1, 1 + (save_jobs (db ++ [rowOfJob j]) js).2)
        from by
          simp [save_jobs, insertIgnore_new db (rowOfJob j) (by simpa [rowOfJob_job_id])]]
      apply ih
      have : dbIds (db ++ [rowOfJob j]) = dbIds db ++ [j.job_id] := by
        simp [dbIds, rowOfJob_job_id]
      rw [this]
      exact List.Nodup.append h (List.nodup_singleton _)
        (by intro a ha hb; simp at hb; exact hj (hb ▸ ha))

theorem length_save_jobs (jobs : List Job) (db : List DbRow) :
    (save_jobs db jobs).1.length = db.length + (save_jobs db jobs).2 := by
  induction jobs generalizing db with
  | nil => simp [save_jobs]
  | cons j js ih =>
    by_cases hj : j.job_id ∈ dbIds db
    · rw [show save_jobs db (j :: js) =
        (save_jobs db js |>.1, 0 + (save_jobs db js).2) from by
          simp [save_jobs, insertIgnore_found db (rowOfJob j) (by simpa [rowOfJob_job_id])]]
      simpa using ih db
    · rw [show save_jobs db (j :: js) =
        (save_jobs (db ++ [rowOfJob j]) js |>.1, 1 + (save_jobs (db ++ [rowOfJob j]) js).2)
        from by
          simp [save_jobs, insertIgnore_new db (rowOfJob j) (by simpa [rowOfJob_job_id])]]
      have := ih (db ++ [rowOfJob j])
      simp at this
      simp [this]
      omega

theorem save_jobs_noop (jobs : List Job) (db : List DbRow)
    (h : ∀ i ∈ batchIds jobs, i ∈ dbIds db) : save_jobs db jobs = (db, 0) := by
  induction jobs generalizing db with
  | nil => rfl
  | cons j js ih =>
    have hj : j.job_id ∈ dbIds db := h j.job_id (by simp [batchIds])
    have hrest : save_jobs db js = (db, 0) :=
      ih db (fun i hi => h i (by simp [batchIds] at hi ⊢; exact Or.inr hi))
    simp [save_jobs, insertIgnore_found db (rowOfJob j) (by simpa [rowOfJob_job_id]), hrest]

theorem countP_mem_of_nodup (l S : List String) (hl : l.Nodup)
    (hS : ∀ i ∈ S, i ∈ l) :
    l.countP (fun i => decide (i ∈ S)) = S.dedup.length := by
  rw [List.countP_eq_length_filter]
  have hnd : (l.filter (fun i => decide (i ∈ S))).Nodup := hl.filter _
  rw [← List.toFinset_card_of_nodup hnd]
  have hf : (l.filter (fun i => decide (i ∈ S))).toFinset = S.toFinset := by
    ext x
    simp only [List.toFinset_filter, Finset.mem_filter, List.mem_toFinset, decide_eq_true_eq]
    exact ⟨fun hx => hx.2, fun hx => ⟨hS x hx, hx⟩⟩
  rw [hf, List.card_toFinset]

theorem rowCountFor_eq_countP_ids (db : List DbRow) (ids : List String) :
    rowCountFor db ids = (dbIds db).countP (fun i => decide (i ∈ ids)) := by
  unfold rowCountFor dbIds
  rw [List.countP_map]
  rfl

/-- Claim C2: save_jobs is idempotent on job_id.  With a table whose job_ids
are unique (the unique key), saving a batch twice leaves exactly one row per
unique job_id of the batch, each call returns exactly the number of rows it
newly wrote (first call: growth of the table; second call: 0, the table
unchanged), and duplicates are silently skipped. -/
theorem c2_save_jobs_idempotent (db : List DbRow) (jobs : List Job)
    (hnd : (dbIds db).Nodup) :
    rowCountFor (save_jobs (save_jobs db jobs).1 jobs).1 (batchIds jobs) =
      (batchIds jobs).dedup.length ∧
    (save_jobs db jobs).1.length = db.length + (save_jobs db jobs).2 ∧
    save_jobs (save_jobs db jobs).1 jobs = ((save_jobs db jobs).1, 0) := by
  have hsecond : save_jobs (save_jobs db jobs).1 jobs = ((save_jobs db jobs).1, 0) := by
    apply save_jobs_noop
    intro i hi
    exact (mem_dbIds_save_jobs jobs db i).mpr (Or.inr hi)
  refine ⟨?_, length_save_jobs jobs db, hsecond⟩
  rw [hsecond]
  rw [rowCountFor_eq_countP_ids]
  apply countP_mem_of_nodup
  · exact nodup_dbIds_save_jobs jobs db hnd
  · intro i hi
    exact (mem_dbIds_save_jobs jobs db i).mpr (Or.inr hi)

/-- Witness for C2: an empty table and a two-element batch sharing one url
(hence one job_id). -/
theorem c2_save_jobs_idempotent_witness :
    let j1 : Job := mkJob id { title := "Dev", company := "Acme", location := "", description := "",
                               url := "https://x/y", source := "Remotive" }
    let j2 : Job := mkJob id { title := "Dev 2", company := "Acme", location := "", description := "",
                               url := "https://x/y", source := "Remotive" }
    rowCountFor (save_jobs (save_jobs [] [j1, j2]).1 [j1, j2]).1 (batchIds [j1, j2]) =
      (batchIds [j1, j2]).dedup.length ∧
    (save_jobs [] [j1, j2]).1.length = ([] : List DbRow).length + (save_jobs [] [j1, j2]).2 ∧
    save_jobs (save_jobs [] [j1, j2]).1 [j1, j2] = ((save_jobs [] [j1, j2]).1, 0) :=
  c2_save_jobs_idempotent [] _ (by decide)

/-- The SQL condition added by JobStorage.search when salary_min is not None:
(salary_min IS NOT NULL AND salary_min >= S). -/
def salary_min_condition (s : ℚ) (r : DbRow) : Bool :=
  match r.salary_min with
  | none => false
  | some v => decide (s ≤ v)

/-- JobStorage.search restricted to its row-filtering semantics: the WHERE
clause is the conjunction of the other optional conditions (query, source,
remote, job_type, posted_in_last_days, not-interested, region — abstracted as
the predicate `other`) with the salary_min condition, which is present exactly
when the salary_min argument is not None. -/
def search (other : DbRow → Bool) (salary_min : Option ℚ) (db : List DbRow) : List DbRow :=
  db.filter (fun r => other r &&
    (match salary_min with
     | none => true
     | some s => salary_min_condition s r))

/-- Claim C3: with a non-null threshold S, every row returned by search has a
non-NULL stored salary_min that is at least S; NULL salary rows are excluded. -/
theorem c3_search_salary_min (other : DbRow → Bool) (S : ℚ) (db : List DbRow)
    (r : DbRow) (hr : r ∈ search other (some S) db) :
    ∃ v, r.salary_min = some v ∧ S ≤ v := by
  unfold search at hr
  have hcond := (List.mem_filter.mp hr).2
  simp only [Bool.and_eq_true] at hcond
  have := hcond.2
  unfold salary_min_condition at this
  cases h : r.salary_min with
  | none => rw [h] at this; cases this
  | some v =>
    rw [h] at this
    exact ⟨v, rfl, by simpa using this⟩

def c3Row (v : Option ℚ) : DbRow :=
  { job_id := "a", title := "", company := "", location := "", description := "", url := "",
    source := "", remote := "", salary_min := v, salary_max := none, salary_currency := "",
    job_type := "", experience_level := "", date_posted := "", date_scraped := "", tags := "",
    company_logo := "" }

/-- Witness for C3 at a concrete table: the row with salary 60000 is returned
by search with threshold 50000 and indeed has a known salary at least 50000. -/
theorem c3_search_salary_min_witness :
    ∃ v, (c3Row (some 60000)).salary_min = some v ∧ (50000 : ℚ) ≤ v :=
  c3_search_salary_min (fun _ => true) 50000
    [c3Row none, c3Row (some 30000), c3Row (some 60000)] (c3Row (some 60000))
    (by simp [search, salary_min_condition, c3Row]; norm_num)

/-- A stored jobs row is NULL-or-nonzero in both salary columns. -/
def storedSalaryOk (r : DbRow) : Prop :=
  (r.salary_min = none ∨ ∃ v, r.salary_min = some v ∧ v ≠ 0) ∧
  (r.salary_max = none ∨ ∃ v, r.salary_max = some v ∧ v ≠ 0)

theorem mem_save_jobs (jobs : List Job) (db : List DbRow) (r : DbRow)
    (hr : r ∈ (save_jobs db jobs).1) : r ∈ db ∨ ∃ j ∈ jobs, r = rowOfJob j := by
  induction jobs generalizing db with
  | nil => exact Or.inl (by simpa [save_jobs] using hr)
  | cons j js ih =>
    simp only [save_jobs] at hr
    rcases ih _ hr with hmem | ⟨j2, hj2, he⟩
    · unfold insertIgnore at hmem
      split at hmem
      · exact Or.inl hmem
      · rcases List.mem_append.mp hmem with hl | hr2
        · exact Or.inl hl
        · exact Or.inr ⟨j, by simp, by simpa using hr2⟩
    · exact Or.inr ⟨j2, by simp [hj2], he⟩

/-- Claim C10: save_jobs stores NULL for falsy (0 or None) salary values, so
every persisted row is NULL-or-nonzero in both salary columns; a Job with a
zero salary becomes identical, as a row, to the same Job with unknown salary,
and such a row is excluded by the storage-level salary_min filter. -/
theorem c10_falsy_salary_stored_null :
    (∀ j : Job, storedSalaryOk (rowOfJob j)) ∧
    (∀ db jobs (r : DbRow), (∀ x ∈ db, storedSalaryOk x) →
      r ∈ (save_jobs db jobs).1 → storedSalaryOk r) ∧
    (∀ j : Job, j.salary_min = some 0 → rowOfJob j = rowOfJob { j with salary_min := none }) ∧
    (∀ j : Job, j.salary_max = some 0 → rowOfJob j = rowOfJob { j with salary_max := none }) ∧
    (∀ (j : Job) (other : DbRow → Bool) (S : ℚ) (db : List DbRow),
      (j.salary_min = some 0 ∨ j.salary_min = none) →
      rowOfJob j ∉ search other (some S) db) := by
  have hok : ∀ j : Job, storedSalaryOk (rowOfJob j) := by
    intro j
    constructor
    · show (if truthyNum j.salary_min then j.salary_min else none) = none ∨ _
      cases h : j.salary_min with
      | none => simp [truthyNum]
      | some v =>
        by_cases hv : v = 0
        · simp [truthyNum, hv]
        · refine Or.inr ⟨v, ?_, hv⟩
          have ht : truthyNum (some v) = true := by simp [truthyNum, bne_iff_ne, hv]
          show (rowOfJob j).salary_min = some v
          simp [rowOfJob, h, ht]
    · show (if truthyNum j.salary_max then j.salary_max else none) = none ∨ _
      cases h : j.salary_max with
      | none => simp [truthyNum]
      | some v =>
        by_cases hv : v = 0
        · simp [truthyNum, hv]
        · refine Or.inr ⟨v, ?_, hv⟩
          have ht : truthyNum (some v) = true := by simp [truthyNum, bne_iff_ne, hv]
          show (rowOfJob j).salary_max = some v
          simp [rowOfJob, h, ht]
  refine ⟨hok, ?_, ?_, ?_, ?_⟩
  · intro db jobs r hdb hr
    rcases mem_save_jobs jobs db r hr with h | ⟨j, _, he⟩
    · exact hdb r h
    · exact he ▸ hok j
  · intro j h; simp [rowOfJob, truthyNum, h]
  · intro j h; simp [rowOfJob, truthyNum, h]
  · intro j other S db h hmem
    have hnull : (rowOfJob j).salary_min = none := by
      rcases h with h | h <;> simp [rowOfJob, truthyNum, h]
    have hcond := (List.mem_filter.mp hmem).2
    simp only [Bool.and_eq_true] at hcond
    have := hcond.2
    unfold salary_min_condition at this
    rw [hnull] at this
    cases this

/-- Witness for C10: a Job whose salary_min is 0 is stored with NULL salary,
equals its unknown-salary variant, and is excluded by search with a 1 pound
threshold even when it is in the table. -/
theorem c10_falsy_salary_stored_null_witness :
    let j : Job := { title := "Dev", company := "Acme", location := "", description := "",
                     url := "u", source := "s", salary_min := some 0, salary_max := some 0 }
    storedSalaryOk (rowOfJob j) ∧
    rowOfJob j = rowOfJob { j with salary_min := none } ∧
    rowOfJob j ∉ search (fun _ => true) (some 1) [rowOfJob j] := by
  intro j
  refine ⟨c10_falsy_salary_stored_null.1 j,
    c10_falsy_salary_stored_null.2.2.1 j rfl,
    c10_falsy_salary_stored_null.2.2.2.2 j (fun _ => true) 1 [rowOfJob j] (Or.inl rfl)⟩

/-- storage.py: one row of the ai_prompts table (fields relevant to
set_active_ai_prompt; id is the primary key). -/
structure AIPrompt where
  id : Nat
  title : String
  model : String
  is_active : Bool
deriving DecidableEq, Repr

/-- First UPDATE of set_active_ai_prompt: UPDATE ai_prompts SET is_active = 0. -/
def clear_all_active (t : List AIPrompt) : List AIPrompt :=
  t.map (fun p => { p with is_active := false })

/-- JobStorage.set_active_ai_prompt: clear every is_active flag, then set it on
the rows with the given id; returns whether the second UPDATE changed a row. -/
def set_active_ai_prompt (t : List AIPrompt) (pid : Nat) : List AIPrompt × Bool :=
  let t1 := clear_all_active t
  let t2 := t1.map (fun p => if p.id == pid then { p with is_active := true } else p)
  (t2, decide (0 < t1.countP (fun p => p.id == pid)))

theorem countP_active_set_active (t : List AIPrompt) (pid : Nat) :
    ((set_active_ai_prompt t pid).1.countP (fun p => p.is_active)) =
      t.countP (fun p => p.id == pid) := by
  unfold set_active_ai_prompt clear_all_active
  simp only [List.countP_map]
  apply List.countP_congr
  intro p _
  by_cases h : p.id = pid <;> simp [Function.comp, h]

theorem countP_beq_le_one {α β : Type} [DecidableEq β] (l : List α) (f : α → β)
    (hnd : (l.map f).Nodup) (b : β) : l.countP (fun x => f x == b) ≤ 1 := by
  induction l with
  | nil => simp
  | cons a as ih =>
    simp only [List.map_cons, List.nodup_cons] at hnd
    rw [List.countP_cons]
    by_cases h : f a = b
    · have hz : as.countP (fun x => f x == b) = 0 := by
        rw [List.countP_eq_zero]
        intro x hx
        simp only [beq_iff_eq]
        intro he
        exact hnd.1 (List.mem_map.mpr ⟨x, hx, by rw [he, h]⟩)
      simp [hz, h]
    · simpa [h] using ih hnd.2

/-- Claim C5: after set_active_ai_prompt(p) on a table that contains a prompt
with id p (ids unique, the primary key), exactly one row has is_active = true,
that row has id p, the call reports success, and — for any target id — at most
one row is ever active afterwards. -/
theorem c5_set_active_ai_prompt (t : List AIPrompt) (pid : Nat)
    (hnd : (t.map AIPrompt.id).Nodup) (hex : ∃ p ∈ t, p.id = pid) :
    ((set_active_ai_prompt t pid).1.countP (fun p => p.is_active) = 1) ∧
    (∀ p ∈ (set_active_ai_prompt t pid).1, p.is_active = true → p.id = pid) ∧
    ((set_active_ai_prompt t pid).2 = true) ∧
    (∀ pid2 : Nat, (set_active_ai_prompt t pid2).1.countP (fun p => p.is_active) ≤ 1) := by
  have hcnt : ∀ q : Nat, ((set_active_ai_prompt t q).1.countP (fun p => p.is_active)) =
      t.countP (fun p => p.id == q) := fun q => countP_active_set_active t q
  have hpos : 0 < t.countP (fun p => p.id == pid) := by
    rw [List.countP_pos_iff]
    rcases hex with ⟨p, hp, hpe⟩
    exact ⟨p, hp, by simp [hpe]⟩
  have hle : t.countP (fun p => p.id == pid) ≤ 1 := countP_beq_le_one t AIPrompt.id hnd pid
  refine ⟨by rw [hcnt]; omega, ?_, ?_, ?_⟩
  · intro p hp hact
    unfold set_active_ai_prompt clear_all_active at hp
    simp only [List.map_map, List.mem_map] at hp
    rcases hp with ⟨x, _, hxe⟩
    by_cases h : x.id = pid
    · rw [← hxe]; simp [Function.comp, h]
    · exfalso
      rw [← hxe] at hact
      simp [Function.comp, h] at hact
  · unfold set_active_ai_prompt
    simp only [decide_eq_true_eq]
    have : (clear_all_active t).countP (fun p => p.id == pid) =
        t.countP (fun p => p.id == pid) := by
      unfold clear_all_active
      rw [List.countP_map]
      rfl
    rw [this]
    exact hpos
  · intro pid2
    rw [hcnt]
    exact countP_beq_le_one t AIPrompt.id hnd pid2

/-- Witness for C5 at a concrete two-row table. -/
theorem c5_set_active_ai_prompt_witness :
    let t : List AIPrompt := [⟨1, "a", "m", true⟩, ⟨2, "b", "m", false⟩]
    ((set_active_ai_prompt t 2).1.countP (fun p => p.is_active) = 1) ∧
    (∀ p ∈ (set_active_ai_prompt t 2).1, p.is_active = true → p.id = 2) ∧
    ((set_active_ai_prompt t 2).2 = true) ∧
    (∀ pid2 : Nat, (set_active_ai_prompt t 2 |>.1.countP (fun p => p.is_active)) ≤ 1) := by
  intro t
  have h := c5_set_active_ai_prompt t 2 (by decide) ⟨⟨2, "b", "m", false⟩, by decide, rfl⟩
  exact ⟨h.1, h.2.1, h.2.2.1, fun _ => le_of_eq h.1⟩

/-- sources/base.py normalize_keywords: keep the stripped non-empty keywords;
when nothing survives, fall back to the supplied default or to the
single-element list whose member is the word job. -/
def normalize_keywords (keywords : List String) (dflt : Option (List String)) : List String :=
  let result := (keywords.filter (fun kw => kw != "" && pyStrip kw != "")).map pyStrip
  if result ≠ [] then result else dflt.getD ["job"]

/-- Claim C9: an empty keyword list, or one whose entries are all
empty/whitespace, normalises to the single default search term (the word job)
when no default is supplied, and to the supplied default otherwise; when any
keyword survives stripping, the result is exactly the stripped non-empty
keywords (no fallback), each a stripped non-empty string. -/
theorem c9_normalize_keywords :
    (normalize_keywords [] none = ["job"]) ∧
    (∀ ks : List String, (∀ k ∈ ks, pyStrip k = "") →
      normalize_keywords ks none = ["job"]) ∧
    (∀ (ks : List String) (d : List String), (∀ k ∈ ks, pyStrip k = "") →
      normalize_keywords ks (some d) = d) ∧
    (∀ (ks : List String) (d : Option (List String)),
      (∃ k ∈ ks, pyStrip k ≠ "") →
      normalize_keywords ks d =
        (ks.filter (fun kw => kw != "" && pyStrip kw != "")).map pyStrip ∧
      ∀ x ∈ normalize_keywords ks d, x ≠ "" ∧ ∃ k ∈ ks, x = pyStrip k) := by
  have hfilter_nil : ∀ ks : List String, (∀ k ∈ ks, pyStrip k = "") →
      ks.filter (fun kw => kw != "" && pyStrip kw != "") = [] := by
    intro ks h
    rw [List.filter_eq_nil_iff]
    intro k hk
    simp [h k hk]
  refine ⟨rfl, ?_, ?_, ?_⟩
  · intro ks h
    unfold normalize_keywords
    simp [hfilter_nil ks h]
  · intro ks d h
    unfold normalize_keywords
    simp [hfilter_nil ks h]
  · intro ks d hex
    have hne : ks.filter (fun kw => kw != "" && pyStrip kw != "") ≠ [] := by
      rcases hex with ⟨k, hk, hke⟩
      intro hnil
      have hkk : k ≠ "" := by
        intro he
        exact hke (by rw [he]; rfl)
      have : k ∈ ks.filter (fun kw => kw != "" && pyStrip kw != "") :=
        List.mem_filter.mpr ⟨hk, by simp [hkk, hke]⟩
      rw [hnil] at this
      cases this
    have heq : normalize_keywords ks d =
        (ks.filter (fun kw => kw != "" && pyStrip kw != "")).map pyStrip := by
      unfold normalize_keywords
      simp only [ne_eq, ite_not, List.map_eq_nil_iff]
      rw [if_neg hne]
    refine ⟨heq, ?_⟩
    intro x hx
    rw [heq] at hx
    rcases List.mem_map.mp hx with ⟨k, hkf, hke⟩
    have hcond := (List.mem_filter.mp hkf).2
    simp only [Bool.and_eq_true, bne_iff_ne, ne_eq] at hcond
    exact ⟨hke ▸ hcond.2, k, (List.mem_filter.mp hkf).1, hke.symm⟩

/-- Witness for C9: all-whitespace keywords fall back to the default term, and
a mixed list keeps only its stripped non-empty entries. -/
theorem c9_normalize_keywords_witness :
    normalize_keywords [" ", ""] none = ["job"] ∧
    normalize_keywords ["  python ", " ", ""] none = ["python"] ∧
    (∀ x ∈ normalize_keywords ["  python ", " ", ""] none,
      x ≠ "" ∧ ∃ k ∈ ["  python ", " ", ""], x = pyStrip k) := by
  have h2 := c9_normalize_keywords.2.1 [" ", ""] (by decide)
  have h4 := c9_normalize_keywords.2.2.2 ["  python ", " ", ""] none
    ⟨"  python ", by simp, by decide⟩
  refine ⟨h2, ?_, h4.2⟩
  rw [h4.1]
  decide

def digitsToNat (ds : List Char) : Nat :=
  ds.foldl (fun a c => 10 * a + (c.toNat - 48)) 0

def fracVal (ds : List Char) : ℚ :=
  (digitsToNat ds : ℚ) / ((10 : ℚ) ^ ds.length)

theorem length_dropWhile_le {α : Type} (p : α → Bool) (l : List α) :
    (l.dropWhile p).length ≤ l.length := by
  induction l with
  | nil => simp
  | cons a as ih =>
    rw [List.dropWhile_cons]
    split
    · exact Nat.le_succ_of_le ih
    · simp

/-- The numeric groups found by re.findall of one-or-more digits, an optional
dot and trailing digits, over a comma-free string (remotive.py
_parse_salary_string applies replace of commas first), each converted by
float(). -/
def scanNumbers : List Char → List ℚ
  | [] => []
  | c :: cs =>
    if c.isDigit then
      match hrest : cs.dropWhile Char.isDigit with
      | '.' :: rest2 =>
        ((digitsToNat (c :: cs.takeWhile Char.isDigit) : ℚ) +
            fracVal (rest2.takeWhile Char.isDigit)) ::
          scanNumbers (rest2.dropWhile Char.isDigit)
      | rest => (digitsToNat (c :: cs.takeWhile Char.isDigit) : ℚ) :: scanNumbers rest
    else scanNumbers cs
termination_by l => l.length
decreasing_by
  · simp only [List.length_cons]
    have h1 : (rest2.dropWhile Char.isDigit).length ≤ rest2.length := length_dropWhile_le _ _
    have h2 : (cs.dropWhile Char.isDigit).length ≤ cs.length := length_dropWhile_le _ _
    rw [hrest] at h2
    simp only [List.length_cons] at h2
    omega
  · simp only [List.length_cons]
    have h2 : (cs.dropWhile Char.isDigit).length ≤ cs.length := length_dropWhile_le _ _
    rw [hrest] at h2
    omega
  · simp only [List.length_cons]
    omega

def listMin (x : ℚ) (xs : List ℚ) : ℚ := xs.foldl min x

def listMax (x : ℚ) (xs : List ℚ) : ℚ := xs.foldl max x

/-- RemotiveSource._parse_salary_string: extract all numeric groups (commas
removed first); values under 1000 are read as thousands; two or more values
give (min, max), one value gives (v, v), none gives (None, None). -/
def parse_salary_string (s : String) : Option ℚ × Option ℚ :=
  if s = "" then (none, none)
  else
    match scanNumbers (s.toList.filter (fun c => c != ',')) with
    | [] => (none, none)
    | n :: ns =>
      let w := if n < 1000 then n * 1000 else n
      let ws := ns.map (fun v => if v < 1000 then v * 1000 else v)
      if ws ≠ [] then (some (listMin w ws), some (listMax w ws))
      else (some w, some w)

/-- Python str.split(): whitespace-run split, dropping empties. -/
def splitWs : List Char → List (List Char)
  | [] => []
  | c :: cs =>
    if isPyWs c then splitWs cs
    else (c :: cs.takeWhile (fun d => !isPyWs d)) ::
      splitWs (cs.dropWhile (fun d => !isPyWs d))
termination_by l => l.length
decreasing_by
  all_goals simp only [List.length_cons]
  all_goals have := length_dropWhile_le (fun d => !isPyWs d) cs
  all_goals omega

def isInfixB (xs ys : List Char) : Bool := decide (xs <:+: ys)

/-- BaseSource._matches_keywords: case-insensitive; true when the keyword list
is empty, or when some cleaned keyword appears as a substring of the text, or
when a prefix of at least two of its words does. -/
def matches_keywords (text : String) (keywords : List String) : Bool :=
  if keywords.isEmpty then true
  else
    let text_lower := text.toList.map Char.toLower
    keywords.any (fun kw =>
      let kw_clean := pyStrip kw
      if kw_clean = "" then false
      else
        let kw_lower := kw_clean.toList.map Char.toLower
        if isInfixB kw_lower text_lower then true
        else
          let words := splitWs kw_lower
          (List.range (words.length + 1)).any (fun n =>
            decide (2 ≤ n) && isInfixB (List.intercalate [' '] (words.take n)) text_lower))

/-- Python str.title() (ASCII): uppercase the first letter of each alphabetic
run, lowercase the rest. -/
def pyTitleAux : List Char → Bool → List Char
  | [], _ => []
  | c :: cs, prevAlpha =>
    (if c.isAlpha then (if prevAlpha then c.toLower else c.toUpper) else c) ::
      pyTitleAux cs c.isAlpha

def pyTitle (s : String) : String := String.mk (pyTitleAux s.toList false)

def pyReplaceChar (s : String) (a b : Char) : String :=
  String.mk (s.toList.map (fun c => if c == a then b else c))

/-- The job_type normalisation of remotive.py: jt.replace of underscores with
spaces then title-case when jt is truthy, else the empty string. -/
def remotiveJobType (jt : String) : String :=
  if jt ≠ "" then pyTitle (pyReplaceChar jt (Char.ofNat 95) ' ') else ""

/-- One item of the Remotive API payload (the fields fetch_jobs reads,
with the defaults item.get supplies). -/
structure RItem where
  title : String := ""
  company_name : String := ""
  description : String := ""
  tags : List String := []
  candidate_required_location : String := "Worldwide"
  url : String := ""
  salary : String := ""
  job_type : String := ""
  publication_date : String := ""
  company_logo : String := ""
deriving DecidableEq, Repr

/-- The per-item tail of RemotiveSource.fetch_jobs: parse the salary, drop the
item when the requested minimum and the parsed max are both truthy and the max
is below the minimum, drop it when the keyword filter fails, else build the
Job (salary filter first, keyword filter second, as in the source). -/
def remotiveProcessItem (md5 cleanHtml : String → String) (salary_min : Option ℚ)
    (keywords : List String) (item : RItem) : Option Job :=
  let ps := parse_salary_string item.salary
  if truthyNum salary_min && truthyNum ps.2 && decide (ps.2.getD 0 < salary_min.getD 0) then
    none
  else
    let tags_str := String.intercalate ", " item.tags
    let searchable := item.title ++ " " ++ item.company_name ++ " " ++
      item.description ++ " " ++ tags_str
    if !(matches_keywords searchable keywords) then none
    else some (mkJob md5 {
      title := item.title, company := item.company_name,
      location := item.candidate_required_location,
      description := cleanHtml item.description,
      url := item.url, source := "Remotive", remote := "Remote",
      salary_min := ps.1, salary_max := ps.2, salary_currency := "USD",
      job_type := remotiveJobType item.job_type,
      date_posted := item.publication_date, tags := tags_str,
      company_logo := item.company_logo })

/-- One keyword iteration of RemotiveSource.fetch_jobs over its listings.  In
the source, the for loop over the listings only checks the max_results cap
(its body is the cap check alone) and the item-processing code sits after the
loop at loop-nesting depth one, so exactly one item is processed per keyword:
the listing at which the loop stopped — the first when the cap is already
exhausted (max_results non-positive, nothing having been appended inside the
loop), otherwise the last.  An empty listings list processes nothing (in the
source the stale or unbound loop variable makes this path degenerate). -/
def remotiveKeywordStep (md5 cleanHtml : String → String) (salary_min : Option ℚ)
    (keywords : List String) (max_results : Int) (listings : List RItem)
    (jobs : List Job) : List Job :=
  match listings with
  | [] => jobs
  | x :: xs =>
    let item := if max_results ≤ 0 then x else (x :: xs).getLast (List.cons_ne_nil x xs)
    jobs ++ (remotiveProcessItem md5 cleanHtml salary_min keywords item).toList

/-- RemotiveSource.fetch_jobs: short-circuit for On-site, normalise the
keywords with default the one-empty-string list (then re-floor to it), and
fold the per-keyword step over the per-keyword API responses (none models a
failed request, whose handler skips the keyword). -/
def remotive_fetch_jobs (md5 cleanHtml : String → String) (keywords : List String)
    (remote : String) (salary_min : Option ℚ) (max_results : Int)
    (responses : List (Option (List RItem))) : List Job :=
  if remote == "On-site" then []
  else
    let kl0 := normalize_keywords keywords (some [""])
    let kl := if kl0.isEmpty || kl0 == [""] then [""] else kl0
    (kl.zip responses).foldl (fun jobs kr =>
      match kr.2 with
      | none => jobs
      | some listings =>
        remotiveKeywordStep md5 cleanHtml salary_min keywords max_results listings jobs) []

theorem remotiveProcessItem_eq_some (md5 ch : String → String) (smin : Option ℚ)
    (kws : List String) (item : RItem) (j : Job)
    (h : remotiveProcessItem md5 ch smin kws item = some j) :
    j.salary_max = (parse_salary_string item.salary).2 ∧
    (truthyNum smin && truthyNum (parse_salary_string item.salary).2 &&
      decide ((parse_salary_string item.salary).2.getD 0 < smin.getD 0)) = false := by
  simp only [remotiveProcessItem] at h
  by_cases hg : (truthyNum smin && truthyNum (parse_salary_string item.salary).2 &&
      decide ((parse_salary_string item.salary).2.getD 0 < smin.getD 0)) = true
  · rw [if_pos hg] at h; cases h
  · rw [if_neg hg] at h
    constructor
    · split at h
      · cases h
      · injection h with h
        rw [← h, mkJob_salary_max]
    · simpa using hg

theorem le_foldl_max (x : ℚ) (l : List ℚ) : x ≤ l.foldl max x := by
  induction l generalizing x with
  | nil => exact le_refl x
  | cons y ys ih => exact le_trans (le_max_left x y) (ih (max x y))

theorem scanNumbers_nonneg_aux : ∀ (n : Nat) (l : List Char), l.length ≤ n →
    ∀ q ∈ scanNumbers l, 0 ≤ q := by
  intro n
  induction n with
  | zero =>
    intro l hl q hq
    have : l = [] := List.eq_nil_of_length_eq_zero (Nat.le_zero.mp hl)
    rw [this] at hq
    simp [scanNumbers] at hq
  | succ n ih =>
    intro l hl q hq
    match l with
    | [] => simp [scanNumbers] at hq
    | c :: cs =>
      rw [scanNumbers] at hq
      simp only [List.length_cons] at hl
      split at hq
      · split at hq
        · rename_i rest2 hrest
          rcases List.mem_cons.mp hq with he | ht
          · rw [he]
            have h2 : (0 : ℚ) ≤ fracVal (rest2.takeWhile Char.isDigit) := by
              unfold fracVal
              apply div_nonneg (Nat.cast_nonneg _)
              positivity
            have h1 : (0 : ℚ) ≤ (digitsToNat (c :: cs.takeWhile Char.isDigit) : ℚ) :=
              Nat.cast_nonneg _
            linarith
          · have hb : (cs.dropWhile Char.isDigit).length ≤ cs.length :=
              length_dropWhile_le _ _
            have ha : (rest2.dropWhile Char.isDigit).length ≤ rest2.length :=
              length_dropWhile_le _ _
            rw [hrest] at hb
            simp only [List.length_cons] at hb
            exact ih _ (by omega) q ht
        · rcases List.mem_cons.mp hq with he | ht
          · rw [he]; exact Nat.cast_nonneg _
          · have hb : (cs.dropWhile Char.isDigit).length ≤ cs.length :=
              length_dropWhile_le _ _
            exact ih _ (by omega) q ht
      · exact ih cs (by omega) q hq

theorem scanNumbers_nonneg (l : List Char) : ∀ q ∈ scanNumbers l, 0 ≤ q :=
  scanNumbers_nonneg_aux l.length l (le_refl _)

theorem parse_salary_string_snd_nonneg (s : String) (v : ℚ)
    (h : (parse_salary_string s).2 = some v) : 0 ≤ v := by
  unfold parse_salary_string at h
  split at h
  · cases h
  · rename_i hs
    rcases hscan : scanNumbers (s.toList.filter (fun c => c != ',')) with _ | ⟨n, ns⟩
    · rw [hscan] at h; cases h
    · rw [hscan] at h
      have hn : (0 : ℚ) ≤ n := scanNumbers_nonneg _ n (by rw [hscan]; simp)
      have hw : (0 : ℚ) ≤ (if n < 1000 then n * 1000 else n) := by
        split
        · positivity
        · exact hn
      simp only at h
      split at h
      · injection h with h
        rw [← h]
        exact le_trans hw (le_foldl_max _ _)
      · injection h with h
        rw [← h]
        exact hw

theorem mem_remotive_fetch_jobs (md5 ch : String → String) (kws : List String)
    (remote : String) (smin : Option ℚ) (mr : Int)
    (responses : List (Option (List RItem))) (j : Job)
    (hj : j ∈ remotive_fetch_jobs md5 ch kws remote smin mr responses) :
    ∃ item, remotiveProcessItem md5 ch smin kws item = some j := by
  unfold remotive_fetch_jobs at hj
  split at hj
  · cases hj
  · have key : ∀ (prs : List (String × Option (List RItem))) (acc : List Job),
        j ∈ prs.foldl (fun jobs kr =>
          match kr.2 with
          | none => jobs
          | some listings =>
            remotiveKeywordStep md5 ch smin kws mr listings jobs) acc →
        j ∈ acc ∨ ∃ item, remotiveProcessItem md5 ch smin kws item = some j := by
      intro prs
      induction prs with
      | nil => intro acc h; exact Or.inl h
      | cons hd tl ih =>
        intro acc h
        rw [List.foldl_cons] at h
        rcases ih _ h with hacc | hfound
        · rcases hr : hd.2 with _ | listings
          · rw [hr] at hacc; exact Or.inl hacc
          · rw [hr] at hacc
            unfold remotiveKeywordStep at hacc
            rcases listings with _ | ⟨x, xs⟩
            · exact Or.inl hacc
            · simp only at hacc
              rcases List.mem_append.mp hacc with hl | hr2
              · exact Or.inl hl
              · exact Or.inr ⟨_, Option.mem_def.mp (Option.mem_toList.mp hr2)⟩
        · exact Or.inr hfound
    rcases key _ [] hj with hnil | hfound
    · cases hnil
    · exact hfound

/-- The property the claim asserts of every job an adapter returns under a
salary_min threshold S. -/
def adapterSalaryProp (S : ℚ) (j : Job) : Prop :=
  j.salary_max = none ∨ ∃ v, j.salary_max = some v ∧ S ≤ v

/-- The Remotive payload item of the counterexample run: its salary string
parses to (0, 0). -/
def c4Item : RItem := { title := "Dev", company_name := "Acme", url := "https://x/y",
                        salary := "0" }

/-- The Job the counterexample run returns. -/
def c4Job : Job := mkJob id
  { title := "Dev", company := "Acme", location := "Worldwide", description := "",
    url := "https://x/y", source := "Remotive", remote := "Remote",
    salary_min := some 0, salary_max := some 0, salary_currency := "USD" }

theorem c4_parse : parse_salary_string "0" = (some 0, some 0) := by
  unfold parse_salary_string
  rw [if_neg (by decide : ¬("0" : String) = "")]
  have hl : ("0" : String).toList.filter (fun c => c != ',') = ['0'] := by decide
  rw [hl]
  have hscan : scanNumbers ['0'] = [(0 : ℚ)] := by
    rw [scanNumbers]
    rw [if_pos (by decide : ('0').isDigit = true)]
    show ((digitsToNat ['0'] : ℚ)) :: scanNumbers [] = [0]
    rw [show scanNumbers [] = [] from by rw [scanNumbers]]
    norm_num [digitsToNat]
    decide
  rw [hscan]
  norm_num

theorem c4_item_eq : remotiveProcessItem id id (some 50000) [] c4Item = some c4Job := by
  have hp : parse_salary_string c4Item.salary = (some 0, some 0) := c4_parse
  simp only [remotiveProcessItem, hp]
  norm_num [truthyNum, matches_keywords]
  decide

theorem c4_run_eq :
    remotive_fetch_jobs id id [] "Any" (some 50000) 100 [some [c4Item]] = [c4Job] := by
  unfold remotive_fetch_jobs
  rw [if_neg (by decide : ¬(("Any" : String) == "On-site") = true)]
  have hkl : normalize_keywords [] (some [""]) = [""] := rfl
  simp only [hkl, List.isEmpty_nil]
  norm_num [remotiveKeywordStep, c4_item_eq]

theorem c4Job_salary_max : c4Job.salary_max = some 0 := by
  unfold c4Job
  rw [mkJob_salary_max]

/-- C4 counterexample: with threshold 50000, the adapter returns the job built
from an item whose salary string parses to 0 — Python truthiness treats the
parsed max 0 like a missing value in the filter — and that job has
salary_max = 0, which is neither null nor at least 50000.  So the claim as
stated (every returned job has salary_max null or at least S) is false. -/
theorem c4_adapter_salary_claim_counterexample :
    ¬ (∀ j ∈ remotive_fetch_jobs id id [] "Any" (some 50000) 100 [some [c4Item]],
        adapterSalaryProp 50000 j) := by
  intro h
  have hj : c4Job ∈ remotive_fetch_jobs id id [] "Any" (some 50000) 100 [some [c4Item]] := by
    rw [c4_run_eq]
    exact List.mem_singleton.mpr rfl
  rcases h c4Job hj with hnone | ⟨v, hv, hge⟩
  · rw [c4Job_salary_max] at hnone; cases hnone
  · rw [c4Job_salary_max] at hv
    injection hv with hv
    rw [← hv] at hge
    norm_num at hge

/-- Claim C4 (amended): at the adapter layer with threshold S, every returned
job has salary_max null, or zero (Python truthiness makes a parsed 0
indistinguishable from a missing salary in the filter), or at least S; jobs
with unknown or zero salary are included, and only jobs whose known non-zero
salary max is strictly below S are excluded. -/
theorem c4_adapter_salary_filter_amended (md5 ch : String → String)
    (keywords : List String) (remote : String) (S : ℚ) (max_results : Int)
    (responses : List (Option (List RItem))) (j : Job)
    (hj : j ∈ remotive_fetch_jobs md5 ch keywords remote (some S) max_results responses) :
    j.salary_max = none ∨ j.salary_max = some 0 ∨
      ∃ v, j.salary_max = some v ∧ S ≤ v := by
  obtain ⟨item, hit⟩ := mem_remotive_fetch_jobs md5 ch keywords remote (some S)
    max_results responses j hj
  obtain ⟨hmax, hguard⟩ := remotiveProcessItem_eq_some md5 ch (some S) keywords item j hit
  rcases hps : (parse_salary_string item.salary).2 with _ | v
  · exact Or.inl (by rw [hmax, hps])
  · by_cases hv0 : v = 0
    · exact Or.inr (Or.inl (by rw [hmax, hps, hv0]))
    · refine Or.inr (Or.inr ⟨v, by rw [hmax, hps], ?_⟩)
      rw [hps] at hguard
      by_cases hS0 : S = 0
      · rw [hS0]
        exact parse_salary_string_snd_nonneg item.salary v hps
      · have h1 : truthyNum (some S) = true := by simp [truthyNum, bne_iff_ne, hS0]
        have h2 : truthyNum (some v) = true := by simp [truthyNum, bne_iff_ne, hv0]
        rw [h1, h2] at hguard
        simp only [Bool.true_and, decide_eq_false_iff_not, Option.getD_some] at hguard
        exact le_of_not_lt hguard

/-- Witness for the amended C4 at the concrete counterexample run: the
returned job satisfies the amended disjunction (its salary_max is zero). -/
theorem c4_adapter_salary_filter_amended_witness :
    c4Job ∈ remotive_fetch_jobs id id [] "Any" (some 50000) 100 [some [c4Item]] ∧
    (c4Job.salary_max = none ∨ c4Job.salary_max = some 0 ∨
      ∃ v, c4Job.salary_max = some v ∧ (50000 : ℚ) ≤ v) :=
  ⟨by rw [c4_run_eq]; exact List.mem_singleton.mpr rfl,
   c4_adapter_salary_filter_amended id id [] "Any" 50000 100 [some [c4Item]] c4Job
     (by rw [c4_run_eq]; exact List.mem_singleton.mpr rfl)⟩

/-- A parsed JSON value (the shapes json.loads can return). -/
inductive JVal where
  | vNull : JVal
  | vBool : Bool → JVal
  | vInt : Int → JVal
  | vNum : ℚ → JVal
  | vStr : String → JVal
  | vArr : List JVal → JVal
  | vObj : List (String × JVal) → JVal

def btick : Char := Char.ofNat 96

def startsWithFence (cs : List Char) : Bool :=
  match cs with
  | a :: b :: c :: _ => a == btick && b == btick && c == btick
  | _ => false

/-- The closing part of the fence regex at a candidate content cut: the greedy
trailing whitespace run followed by the three backticks (a backtick is not
whitespace, so the backtracked run can only stop at its end). -/
def fenceCloses (cs : List Char) : Bool := startsWithFence (cs.dropWhile isPyWs)

/-- The lazy content group of the fence regex: the shortest non-empty prefix
after which the closing part matches. -/
def grabContent : List Char → Option (List Char)
  | [] => none
  | c :: cs =>
    if fenceCloses cs then some [c]
    else
      match grabContent cs with
      | some g => some (c :: g)
      | none => none

/-- After an opening fence: the optional json tag is consumed greedily, and the
engine retries without it when the rest of the pattern fails. -/
def fenceTail (afterOpen : List Char) : Option (List Char) :=
  match afterOpen with
  | 'j' :: 's' :: 'o' :: 'n' :: rest =>
    match grabContent (rest.dropWhile isPyWs) with
    | some g => some g
    | none => grabContent (afterOpen.dropWhile isPyWs)
  | _ => grabContent (afterOpen.dropWhile isPyWs)

/-- re.search for the fence pattern: scan positions left to right; at each
opening fence try the tail, and on failure resume scanning one character
further. -/
def findFenceGroup : List Char → Option (List Char)
  | [] => none
  | c :: cs =>
    if startsWithFence (c :: cs) then
      match fenceTail (cs.drop 2) with
      | some g => some g
      | none => findFenceGroup cs
    else findFenceGroup cs

def findLastIdx (p : Char → Bool) (l : List Char) : Option Nat :=
  match l.reverse.findIdx? p with
  | none => none
  | some k => some (l.length - 1 - k)

/-- Strategy 3 substring: from the first opening brace to the last closing
brace, provided both exist and the latter is strictly after the former. -/
def bracesSlice (t : String) : Option String :=
  match t.toList.findIdx? (fun c => c == Char.ofNat 123),
        findLastIdx (fun c => c == Char.ofNat 125) t.toList with
  | some i, some j =>
    if i < j then some (String.mk ((t.toList.drop i).take (j + 1 - i))) else none
  | _, _ => none

/-- app.py _extract_json: strip the text, then try a direct parse, then the
first markdown fenced block (optionally tagged json), then the outermost
brace substring; raise ValueError when everything fails.  json.loads is
threaded as the parameter loads (standard library). -/
def extract_json (loads : String → Option JVal) (text0 : String) : Except String JVal :=
  let text := pyStrip text0
  match loads text with
  | some v => Except.ok v
  | none =>
    let viaFence :=
      match findFenceGroup text.toList with
      | some g => loads (String.mk g)
      | none => none
    match viaFence with
    | some v => Except.ok v
    | none =>
      match bracesSlice text with
      | some sub =>
        match loads sub with
        | some v => Except.ok v
        | none => Except.error "No valid JSON object found in LLM response"
      | none => Except.error "No valid JSON object found in LLM response"

/-- Strategy 1: parse the whole (stripped) text. -/
def strat1 (loads : String → Option JVal) (t : String) : Option JVal :=
  loads (pyStrip t)

/-- Strategy 2: parse the content of the first markdown fenced block. -/
def strat2 (loads : String → Option JVal) (t : String) : Option JVal :=
  (findFenceGroup (pyStrip t).toList).bind (fun g => loads (String.mk g))

/-- Strategy 3: parse the first-to-last-brace substring. -/
def strat3 (loads : String → Option JVal) (t : String) : Option JVal :=
  (bracesSlice (pyStrip t)).bind loads

/-- Claim C7: extraction tries exactly the three strategies in order — whole
text, first fenced block, outermost braces — returns the first successful
parse, and produces the no-valid-JSON error exactly when all three fail. -/
theorem c7_extract_json_three_strategies (loads : String → Option JVal) (t : String) :
    (extract_json loads t =
      match strat1 loads t with
      | some v => Except.ok v
      | none =>
        match strat2 loads t with
        | some v => Except.ok v
        | none =>
          match strat3 loads t with
          | some v => Except.ok v
          | none => Except.error "No valid JSON object found in LLM response") ∧
    (extract_json loads t = Except.error "No valid JSON object found in LLM response" ↔
      strat1 loads t = none ∧ strat2 loads t = none ∧ strat3 loads t = none) := by
  unfold extract_json strat1 strat2 strat3
  cases h1 : loads (pyStrip t) with
  | some v => simp [h1]
  | none =>
    cases h2 : findFenceGroup (pyStrip t).toList with
    | none =>
      simp only [String.toList] at h2
      cases h3 : bracesSlice (pyStrip t) with
      | none => simp [h1, h2, h3]
      | some sub => cases h4 : loads sub <;> simp [h1, h2, h3, h4, Option.bind]
    | some g =>
      simp only [String.toList] at h2
      cases h4 : loads (String.mk g) with
      | some v => simp [h1, h2, h4, Option.bind, String.mk]
      | none =>
        cases h3 : bracesSlice (pyStrip t) with
        | none => simp [h1, h2, h3, h4, Option.bind, String.mk]
        | some sub =>
          cases h5 : loads sub <;> simp [h1, h2, h3, h4, h5, Option.bind, String.mk]

/-- Witness for C7 exercised at a concrete loads and three inputs, one per
strategy, plus a failing one (included for completeness of the iff). -/
theorem c7_extract_json_three_strategies_witness :
    let loads : String → Option JVal := fun s => if s = "{}" then some (JVal.vObj []) else none
    extract_json loads " {} " = Except.ok (JVal.vObj []) ∧
    extract_json loads "x" = Except.error "No valid JSON object found in LLM response" := by
  intro loads
  constructor
  · rw [(c7_extract_json_three_strategies loads " {} ").1]
    rfl
  · rw [(c7_extract_json_three_strategies loads "x").1]
    rfl

/-- prompts.py ANALYSIS_REQUIRED_FIELDS: the expected kind per field; kScore is
the None entry validated separately as an integer in 1..10. -/
inductive FieldKind where
  | kStr : FieldKind
  | kList : FieldKind
  | kScore : FieldKind
deriving DecidableEq, Repr

def analysisRequiredFields : List (String × FieldKind) :=
  [("keywords", .kList), ("key_skills", .kList), ("job_description", .kStr),
   ("key_responsibilities", .kList), ("match_score", .kScore), ("score_reasoning", .kStr),
   ("skills_we_have", .kList), ("skills_we_are_missing", .kList),
   ("cover_letter_talking_points", .kList), ("red_flags", .kList),
   ("interview_prep_topics", .kList), ("application_tips", .kStr),
   ("company_type", .kStr), ("company_size_estimate", .kStr),
   ("company_highlights", .kList), ("recommendation", .kStr),
   ("recommendation_notes", .kStr)]

def validRecommendations : List String := ["apply", "maybe", "skip"]

/-- One validation violation of app.py _validate_analysis, modelled
structurally (the Python error strings interpolate the field name and the
offending value; the constructor and argument carry the same information). -/
inductive VErr where
  | missingField (f : String)
  | notNonEmptyStr (f : String)
  | notArray (f : String)
  | scoreOutOfRange (v : JVal)
  | scoreNotNumber (v : JVal)
  | badRecommendation (v : JVal)

/-- Python int(x) over string digits (optional sign; int() of a non-numeric
string raises, giving none). -/
def parseIntDigits (l : List Char) : Option Nat :=
  if l ≠ [] ∧ l.all Char.isDigit then some (digitsToNat l) else none

def pyIntOfString (s : String) : Option Int :=
  match (((s.toList.dropWhile isPyWs).reverse.dropWhile isPyWs).reverse) with
  | '+' :: ds => (parseIntDigits ds).map (fun n => (n : Int))
  | '-' :: ds => (parseIntDigits ds).map (fun n => -(n : Int))
  | ds => (parseIntDigits ds).map (fun n => (n : Int))

/-- int() truncation toward zero for a float. -/
def ratTrunc (q : ℚ) : Int := if 0 ≤ q then ⌊q⌋ else ⌈q⌉

/-- Python int(val) as used on match_score: ints pass through, floats
truncate, bools coerce to 0/1, digit strings parse; None, lists and dicts
raise TypeError (none). -/
def pyInt : JVal → Option Int
  | .vInt n => some n
  | .vNum q => some (ratTrunc q)
  | .vBool b => some (if b then 1 else 0)
  | .vStr s => pyIntOfString s
  | _ => none

/-- Python str(val) as used on recommendation.  Only membership of the
normalised result in the recommendation set matters downstream; container and
numeric representations are abbreviated but keep their Python first character,
so they are never in the set. -/
def pyStr : JVal → String
  | .vStr s => s
  | .vBool b => if b then "True" else "False"
  | .vNull => "None"
  | .vInt n => toString n
  | .vNum q => toString q
  | .vArr _ => "[...]"
  | .vObj _ => "\x7b...\x7d"

/-- Dict lookup (first matching key; parsed JSON objects have unique keys). -/
def getField (d : List (String × JVal)) (k : String) : Option JVal :=
  match d with
  | [] => none
  | (k2, v) :: rest => if k2 = k then some v else getField rest k

/-- Dict item assignment of an existing key. -/
def setVal : List (String × JVal) → String → JVal → List (String × JVal)
  | [], _, _ => []
  | (k2, w) :: rest, k, v =>
    (if k2 = k then (k, v) else (k2, w)) :: setVal rest k v

def isNonEmptyStrVal : JVal → Bool
  | .vStr s => pyStrip s != ""
  | _ => false

def isArrVal : JVal → Bool
  | .vArr _ => true
  | _ => false

/-- The field loop of _validate_analysis: per required field, record a
missing/kind violation, and coerce match_score in place when it is a valid
1..10 integer. -/
def validateFields : List (String × FieldKind) → List (String × JVal) →
    List VErr × List (String × JVal)
  | [], d => ([], d)
  | (f, k) :: rest, d =>
    match getField d f with
    | none =>
      let r := validateFields rest d
      (VErr.missingField f :: r.1, r.2)
    | some v =>
      match k with
      | .kStr =>
        if isNonEmptyStrVal v then validateFields rest d
        else
          let r := validateFields rest d
          (VErr.notNonEmptyStr f :: r.1, r.2)
      | .kList =>
        if isArrVal v then validateFields rest d
        else
          let r := validateFields rest d
          (VErr.notArray f :: r.1, r.2)
      | .kScore =>
        match pyInt v with
        | none =>
          let r := validateFields rest d
          (VErr.scoreNotNumber v :: r.1, r.2)
        | some i =>
          if 1 ≤ i ∧ i ≤ 10 then validateFields rest (setVal d f (JVal.vInt i))
          else
            let r := validateFields rest d
            (VErr.scoreOutOfRange v :: r.1, r.2)

/-- app.py _validate_analysis: run the field loop, then normalise and check
recommendation (trim + lowercase, membership in the valid set), mutating it in
place on success and appending a violation otherwise. -/
def validate_analysis (d : List (String × JVal)) :
    List VErr × List (String × JVal) :=
  let r := validateFields analysisRequiredFields d
  match getField r.2 "recommendation" with
  | none => r
  | some v =>
    let rn := pyLower (pyStrip (pyStr v))
    if rn ∈ validRecommendations then (r.1, setVal r.2 "recommendation" (JVal.vStr rn))
    else (r.1 ++ [VErr.badRecommendation v], r.2)

/-- raw_content with each newline blanked, cut at 300 characters. -/
def previewOf (raw : String) : String :=
  String.mk ((raw.toList.take 300).map (fun c => if c == '\n' then ' ' else c))

/-- Outcome of the api_ai_analyse tail (extraction onward).  notAnObject marks
a successful parse whose top-level value is not a dict: the handler would then
fault inside validation (membership test on a non-container), outside this
claim. -/
inductive AnalyseOutcome where
  | extractFailed (err : String) (preview : String)
  | invalidAnalysis (errors : List VErr) (preview : String)
  | notAnObject
  | saved (data : List (String × JVal))

/-- app.py api_ai_analyse after the provider call: extract JSON (422 with
preview on failure), validate (422 with the violation list and preview on any
violation, and no row written), else persist. -/
def api_ai_analyse (loads : String → Option JVal) (raw : String) : AnalyseOutcome :=
  match extract_json loads raw with
  | .error e => .extractFailed e (previewOf raw)
  | .ok (JVal.vObj d) =>
    let r := validate_analysis d
    if r.1.isEmpty then .saved r.2
    else .invalidAnalysis r.1 (previewOf raw)
  | .ok _ => .notAnObject

theorem getField_none_setVal (d : List (String × JVal)) (k k2 : String) (v : JVal)
    (h : getField d k2 = none) : getField (setVal d k v) k2 = none := by
  induction d with
  | nil => rfl
  | cons kv rest ih =>
    obtain ⟨a, b⟩ := kv
    simp only [setVal]
    by_cases hak : a = k
    · rw [if_pos hak]
      simp only [getField]
      by_cases hk2 : k = k2
      · exfalso
        rw [show a = k2 from hak.trans hk2] at h
        simp [getField] at h
      · rw [if_neg hk2]
        simp only [getField] at h
        by_cases hk3 : a = k2
        · simp [hk3] at h
        · rw [if_neg hk3] at h
          exact ih h
    · rw [if_neg hak]
      simp only [getField] at h ⊢
      by_cases hk3 : a = k2
      · simp [hk3] at h
      · rw [if_neg hk3] at h ⊢
        exact ih h

theorem getField_setVal_self (d : List (String × JVal)) (k : String) (v w : JVal)
    (h : getField d k = some w) : getField (setVal d k v) k = some v := by
  induction d with
  | nil => cases h
  | cons kv rest ih =>
    obtain ⟨a, b⟩ := kv
    simp only [setVal]
    by_cases hak : a = k
    · rw [if_pos hak]
      simp [getField]
    · rw [if_neg hak]
      simp only [getField, if_neg hak] at h ⊢
      exact ih h

theorem getField_setVal_ne (d : List (String × JVal)) (k k2 : String) (v : JVal)
    (hne : k2 ≠ k) : getField (setVal d k v) k2 = getField d k2 := by
  induction d with
  | nil => rfl
  | cons kv rest ih =>
    obtain ⟨a, b⟩ := kv
    simp only [setVal]
    by_cases hak : a = k
    · rw [if_pos hak]
      simp only [getField]
      rw [if_neg (fun he => hne he.symm), if_neg (fun he : a = k2 => hne (hak ▸ he).symm)]
      exact ih
    · rw [if_neg hak]
      simp only [getField]
      by_cases hk3 : a = k2
      · rw [if_pos hk3, if_pos hk3]
      · rw [if_neg hk3, if_neg hk3]
        exact ih

/-- The data mutation one field of the loop performs (only a valid
match_score coercion writes). -/
def stepData (f : String) (k : FieldKind) (d : List (String × JVal)) :
    List (String × JVal) :=
  match getField d f, k with
  | some v, .kScore =>
    match pyInt v with
    | some i => if 1 ≤ i ∧ i ≤ 10 then setVal d f (JVal.vInt i) else d
    | none => d
  | _, _ => d

/-- The violations one field of the loop records. -/
def stepErrs (f : String) (k : FieldKind) (d : List (String × JVal)) : List VErr :=
  match getField d f with
  | none => [VErr.missingField f]
  | some v =>
    match k with
    | .kStr => if isNonEmptyStrVal v then [] else [VErr.notNonEmptyStr f]
    | .kList => if isArrVal v then [] else [VErr.notArray f]
    | .kScore =>
      match pyInt v with
      | none => [VErr.scoreNotNumber v]
      | some i => if 1 ≤ i ∧ i ≤ 10 then [] else [VErr.scoreOutOfRange v]

theorem validateFields_cons_eq (f : String) (k : FieldKind)
    (rest : List (String × FieldKind)) (d : List (String × JVal)) :
    validateFields ((f, k) :: rest) d =
      (stepErrs f k d ++ (validateFields rest (stepData f k d)).1,
       (validateFields rest (stepData f k d)).2) := by
  conv_lhs => rw [validateFields]
  cases hg : getField d f with
  | none => simp [hg, stepErrs, stepData]
  | some v =>
    cases k with
    | kStr =>
      simp only [stepErrs, stepData, hg]
      by_cases hemp : isNonEmptyStrVal v = true
      · simp [hemp]
      · simp [hemp]
    | kList =>
      simp only [stepErrs, stepData, hg]
      by_cases harr : isArrVal v = true
      · simp [harr]
      · simp [harr]
    | kScore =>
      cases hi : pyInt v with
      | none => simp [stepErrs, stepData, hg, hi]
      | some i =>
        simp only [stepErrs, stepData, hg, hi]
        by_cases hr : 1 ≤ i ∧ i ≤ 10
        · simp [hr]
        · simp [hr]

theorem getField_stepData_none (g : String) (k2 : FieldKind)
    (d : List (String × JVal)) (f : String) (h : getField d f = none) :
    getField (stepData g k2 d) f = none := by
  cases hg : getField d g with
  | none => simpa [stepData, hg] using h
  | some v =>
    cases k2 with
    | kStr => simpa [stepData, hg] using h
    | kList => simpa [stepData, hg] using h
    | kScore =>
      cases hi : pyInt v with
      | none => simpa [stepData, hg, hi] using h
      | some i =>
        simp only [stepData, hg, hi]
        split
        · exact getField_none_setVal d g f (JVal.vInt i) h
        · exact h

theorem getField_stepData_preserve (g : String) (k2 : FieldKind)
    (d : List (String × JVal)) (f : String)
    (hcase : g ≠ f ∨ k2 ≠ FieldKind.kScore) :
    getField (stepData g k2 d) f = getField d f := by
  cases hg : getField d g with
  | none => simp [stepData, hg]
  | some v =>
    cases k2 with
    | kStr => simp [stepData, hg]
    | kList => simp [stepData, hg]
    | kScore =>
      rcases hcase with hne | hk
      · cases hi : pyInt v with
        | none => simp [stepData, hg, hi]
        | some i =>
          simp only [stepData, hg, hi]
          split
          · exact getField_setVal_ne d g f (JVal.vInt i) (fun he => hne he.symm)
          · rfl
      · exact absurd rfl hk

theorem validateFields_missing_mem (fields : List (String × FieldKind)) :
    ∀ (d : List (String × JVal)) (f : String) (k : FieldKind),
    (f, k) ∈ fields → getField d f = none →
    VErr.missingField f ∈ (validateFields fields d).1 := by
  induction fields with
  | nil => intro d f k h; cases h
  | cons hd tl ih =>
    intro d f k hmem hnone
    obtain ⟨g, k2⟩ := hd
    rw [validateFields_cons_eq]
    rcases List.mem_cons.mp hmem with he | ht
    · obtain ⟨rfl, rfl⟩ := Prod.mk.injEq .. ▸ he
      apply List.mem_append_left
      unfold stepErrs
      rw [hnone]
      exact List.mem_singleton.mpr rfl
    · apply List.mem_append_right
      exact ih _ f k ht (getField_stepData_none g k2 d f hnone)

theorem validateFields_score_range_mem (fields : List (String × FieldKind)) :
    ∀ (d : List (String × JVal)) (f : String) (v : JVal) (i : Int),
    (f, FieldKind.kScore) ∈ fields → getField d f = some v → pyInt v = some i →
    (i < 1 ∨ 10 < i) →
    VErr.scoreOutOfRange v ∈ (validateFields fields d).1 := by
  induction fields with
  | nil => intro d f v i h; cases h
  | cons hd tl ih =>
    intro d f v i hmem hv hi hout
    obtain ⟨g, k2⟩ := hd
    rw [validateFields_cons_eq]
    by_cases hhead : g = f ∧ k2 = FieldKind.kScore
    · obtain ⟨rfl, rfl⟩ := hhead
      apply List.mem_append_left
      simp only [stepErrs, hv, hi]
      rw [if_neg (by omega)]
      exact List.mem_singleton.mpr rfl
    · have htl : (f, FieldKind.kScore) ∈ tl := by
        rcases List.mem_cons.mp hmem with he | ht
        · exfalso
          have h9 := Prod.mk.injEq .. ▸ he
          exact hhead ⟨h9.1.symm, h9.2.symm⟩
        · exact ht
      have hpres : getField (stepData g k2 d) f = getField d f := by
        apply getField_stepData_preserve
        by_cases hgf : g = f
        · exact Or.inr (fun hk => hhead ⟨hgf, hk⟩)
        · exact Or.inl hgf
      apply List.mem_append_right
      exact ih _ f v i htl (hpres.trans hv) hi hout

theorem validateFields_lookup_eq (fields : List (String × FieldKind)) :
    ∀ (d : List (String × JVal)) (f : String),
    (∀ p ∈ fields, p.2 = FieldKind.kScore → p.1 ≠ f) →
    getField (validateFields fields d).2 f = getField d f := by
  induction fields with
  | nil => intro d f h; rfl
  | cons hd tl ih =>
    intro d f h
    obtain ⟨g, k2⟩ := hd
    rw [validateFields_cons_eq]
    have hpres : getField (stepData g k2 d) f = getField d f := by
      apply getField_stepData_preserve
      by_cases hk : k2 = FieldKind.kScore
      · exact Or.inl (h (g, k2) (List.mem_cons_self _ _) hk)
      · exact Or.inr hk
    rw [ih _ f (fun p hp => h p (List.mem_cons_of_mem _ hp)), hpres]

theorem validateFields_score_kept (fields : List (String × FieldKind)) :
    ∀ (d : List (String × JVal)) (f : String) (i : Int),
    (∀ p ∈ fields, p.2 = FieldKind.kScore → p.1 = f) →
    getField d f = some (JVal.vInt i) → 1 ≤ i → i ≤ 10 →
    getField (validateFields fields d).2 f = some (JVal.vInt i) := by
  induction fields with
  | nil => intro d f i hall hd h1 h2; exact hd
  | cons hd0 tl ih =>
    intro d f i hall hd h1 h2
    obtain ⟨g, k2⟩ := hd0
    rw [validateFields_cons_eq]
    have hstep : getField (stepData g k2 d) f = some (JVal.vInt i) := by
      by_cases hk : k2 = FieldKind.kScore
      · have hg : g = f := hall (g, k2) (List.mem_cons_self _ _) hk
        subst hg
        subst hk
        simp only [stepData, hd, pyInt]
        rw [if_pos ⟨h1, h2⟩]
        exact getField_setVal_self d g (JVal.vInt i) (JVal.vInt i) hd
      · rw [getField_stepData_preserve g k2 d f (Or.inr hk)]
        exact hd
    exact ih _ f i (fun p hp => hall p (List.mem_cons_of_mem _ hp)) hstep h1 h2

theorem validateFields_score_stored (fields : List (String × FieldKind)) :
    ∀ (d : List (String × JVal)) (f : String) (v : JVal) (i : Int),
    (∀ p ∈ fields, p.2 = FieldKind.kScore → p.1 = f) →
    (f, FieldKind.kScore) ∈ fields →
    getField d f = some v → pyInt v = some i → 1 ≤ i → i ≤ 10 →
    getField (validateFields fields d).2 f = some (JVal.vInt i) := by
  induction fields with
  | nil => intro d f v i hall hmem; cases hmem
  | cons hd0 tl ih =>
    intro d f v i hall hmem hd hi h1 h2
    obtain ⟨g, k2⟩ := hd0
    rw [validateFields_cons_eq]
    by_cases hhead : g = f ∧ k2 = FieldKind.kScore
    · obtain ⟨rfl, rfl⟩ := hhead
      have hstep : stepData g FieldKind.kScore d = setVal d g (JVal.vInt i) := by
        simp only [stepData, hd, hi]
        rw [if_pos ⟨h1, h2⟩]
      rw [hstep]
      exact validateFields_score_kept tl _ g i
        (fun p hp => hall p (List.mem_cons_of_mem _ hp))
        (getField_setVal_self d g (JVal.vInt i) v hd) h1 h2
    · have htl : (f, FieldKind.kScore) ∈ tl := by
        rcases List.mem_cons.mp hmem with he | ht
        · exfalso
          have h9 := Prod.mk.injEq .. ▸ he
          exact hhead ⟨h9.1.symm, h9.2.symm⟩
        · exact ht
      have hpres : getField (stepData g k2 d) f = getField d f := by
        apply getField_stepData_preserve
        by_cases hgf : g = f
        · exact Or.inr (fun hk => hhead ⟨hgf, hk⟩)
        · exact Or.inl hgf
      exact ih _ f v i (fun p hp => hall p (List.mem_cons_of_mem _ hp)) htl
        (hpres.trans hd) hi h1 h2

theorem validate_analysis_errs_sub (d : List (String × JVal)) (e : VErr)
    (he : e ∈ (validateFields analysisRequiredFields d).1) :
    e ∈ (validate_analysis d).1 := by
  simp only [validate_analysis]
  cases hrec : getField (validateFields analysisRequiredFields d).2 "recommendation" with
  | none => simpa using he
  | some v =>
    simp only [hrec]
    split
    · exact he
    · exact List.mem_append_left _ he

/-- Claim C6: match_score is coerced to an integer and any value outside 1..10
(for example 0 or 11) yields a violation naming the field, while an in-range
value is stored coerced; recommendation is normalised by trim + lowercase,
rejected when not in the apply/maybe/skip set and stored normalised otherwise;
every missing required field yields its violation (all violations are
collected); the preview is at most 300 characters; and whenever extraction
succeeds with an object whose validation produces a non-empty violation list,
the pipeline answers 422 with that list and the preview, writing no row. -/
theorem c6_analysis_validation_and_422 :
    (∀ (d : List (String × JVal)) (v : JVal) (i : Int),
      getField d "match_score" = some v → pyInt v = some i → (i < 1 ∨ 10 < i) →
      VErr.scoreOutOfRange v ∈ (validate_analysis d).1) ∧
    (∀ (d : List (String × JVal)) (v : JVal) (i : Int),
      getField d "match_score" = some v → pyInt v = some i → 1 ≤ i → i ≤ 10 →
      getField (validate_analysis d).2 "match_score" = some (JVal.vInt i)) ∧
    (∀ (d : List (String × JVal)) (v : JVal),
      getField d "recommendation" = some v →
      (pyLower (pyStrip (pyStr v)) ∉ validRecommendations →
        VErr.badRecommendation v ∈ (validate_analysis d).1) ∧
      (pyLower (pyStrip (pyStr v)) ∈ validRecommendations →
        getField (validate_analysis d).2 "recommendation" =
          some (JVal.vStr (pyLower (pyStrip (pyStr v)))))) ∧
    (∀ (d : List (String × JVal)) (f : String) (k : FieldKind),
      (f, k) ∈ analysisRequiredFields → getField d f = none →
      VErr.missingField f ∈ (validate_analysis d).1) ∧
    (∀ raw : String, (previewOf raw).length ≤ 300) ∧
    (∀ (loads : String → Option JVal) (raw : String) (d : List (String × JVal)),
      extract_json loads raw = Except.ok (JVal.vObj d) →
      (validate_analysis d).1 ≠ [] →
      api_ai_analyse loads raw =
        AnalyseOutcome.invalidAnalysis (validate_analysis d).1 (previewOf raw)) := by
  have hall : ∀ p ∈ analysisRequiredFields, p.2 = FieldKind.kScore →
      p.1 = "match_score" := by decide
  have hmem_ms : ("match_score", FieldKind.kScore) ∈ analysisRequiredFields := by decide
  have hnorec : ∀ p ∈ analysisRequiredFields, p.2 = FieldKind.kScore →
      p.1 ≠ "recommendation" := by decide
  refine ⟨?_, ?_, ?_, ?_, ?_, ?_⟩
  · intro d v i hv hi hout
    exact validate_analysis_errs_sub d _
      (validateFields_score_range_mem analysisRequiredFields d "match_score" v i
        hmem_ms hv hi hout)
  · intro d v i hv hi h1 h2
    have hvf := validateFields_score_stored analysisRequiredFields d "match_score" v i
      hall hmem_ms hv hi h1 h2
    simp only [validate_analysis]
    cases hrec : getField (validateFields analysisRequiredFields d).2 "recommendation" with
    | none => simpa using hvf
    | some w =>
      simp only [hrec]
      split
      · show getField (setVal _ "recommendation" _) "match_score" = _
        rw [getField_setVal_ne _ _ _ _ (by decide)]
        exact hvf
      · exact hvf
  · intro d v hv
    have hrec_pres : getField (validateFields analysisRequiredFields d).2
        "recommendation" = some v := by
      rw [validateFields_lookup_eq analysisRequiredFields d "recommendation" hnorec]
      exact hv
    constructor
    · intro hnm
      simp only [validate_analysis, hrec_pres]
      rw [if_neg hnm]
      exact List.mem_append_right _ (List.mem_singleton.mpr rfl)
    · intro hm
      simp only [validate_analysis, hrec_pres]
      rw [if_pos hm]
      exact getField_setVal_self _ _ _ _ hrec_pres
  · intro d f k hmem hnone
    exact validate_analysis_errs_sub d _
      (validateFields_missing_mem analysisRequiredFields d f k hmem hnone)
  · intro raw
    have h1 : (previewOf raw).length = ((raw.toList.take 300).map
        (fun c => if c == '\n' then ' ' else c)).length := rfl
    rw [h1, List.length_map]
    exact le_trans (List.length_take_le 300 raw.toList) (le_refl 300)
  · intro loads raw d hex hne
    simp only [api_ai_analyse, hex]
    rw [if_neg (fun h => hne (List.isEmpty_iff.mp h))]

/-- Witness for C6: score 0 and 11 are rejected with an error naming the
field, a padded upper-case APPLY normalises and stores as apply, and the
concrete one-field dict drives the pipeline to the 422 outcome with its
17 violations and preview. -/
theorem c6_analysis_validation_and_422_witness :
    VErr.scoreOutOfRange (JVal.vInt 0) ∈
      (validate_analysis [("match_score", JVal.vInt 0)]).1 ∧
    VErr.scoreOutOfRange (JVal.vInt 11) ∈
      (validate_analysis [("match_score", JVal.vInt 11)]).1 ∧
    getField (validate_analysis [("recommendation", JVal.vStr " APPLY ")]).2
      "recommendation" = some (JVal.vStr "apply") ∧
    api_ai_analyse
      (fun s => if s = "x" then some (JVal.vObj [("match_score", JVal.vInt 0)]) else none)
      "x" =
      AnalyseOutcome.invalidAnalysis
        (validate_analysis [("match_score", JVal.vInt 0)]).1 (previewOf "x") := by
  refine ⟨?_, ?_, ?_, ?_⟩
  · exact c6_analysis_validation_and_422.1 [("match_score", JVal.vInt 0)]
      (JVal.vInt 0) 0 rfl rfl (Or.inl (by norm_num))
  · exact c6_analysis_validation_and_422.1 [("match_score", JVal.vInt 11)]
      (JVal.vInt 11) 11 rfl rfl (Or.inr (by norm_num))
  · have h := (c6_analysis_validation_and_422.2.2.1
      [("recommendation", JVal.vStr " APPLY ")] (JVal.vStr " APPLY ") rfl).2
      (by decide)
    simpa using h
  · apply c6_analysis_validation_and_422.2.2.2.2.2
    · rfl
    · have hlen : (validate_analysis [("match_score", JVal.vInt 0)]).1.length = 17 := rfl
      intro h
      rw [h] at hlen
      cases hlen

/-- The Task fields _run_search mutates (manager.py), plus the jobs table the
saves write to. -/
structure TaskState where
  status : String
  errors : List String
  completed_sources : Nat
  jobs_found : Nat
  new_jobs_saved : Nat
  source_status : List (String × String)
  db : List DbRow

/-- SearchManager._run_search._fetch_from_source: a worker invokes its adapter
(behaviour: its return value or the exception it raises) and returns
(name, results, error, used_batch); on exception results is empty, the error
carries the message and used_batch is false. -/
def fetch_from_source (name : String) (behaviour : Except String (List Job))
    (usedBatch : Bool) : String × List Job × Option String × Bool :=
  match behaviour with
  | .ok results => (name, results, none, usedBatch)
  | .error e => (name, [], some e, false)

/-- Python truthiness of the worker's error value: None and the empty string
are falsy. -/
def truthyStr (o : Option String) : Bool :=
  match o with
  | none => false
  | some s => s != ""

/-- One iteration of the as_completed loop: bump completed_sources, record the
per-source terminal phase (the worker wrote completed/error before returning,
keyed on the exception itself, not on its message), then gate on the
truthiness of the error string exactly as the source does (if error:): a
truthy error appends the formatted string, while a falsy one — None on
success, or an exception whose str() is empty — falls through to the
bulk-save branch when the adapter did not use on_batch. -/
def process_completion (t : TaskState) :
    String × List Job × Option String × Bool → TaskState
  | (name, results, error, used_batch) =>
    let t1 := { t with
      completed_sources := t.completed_sources + 1,
      source_status := t.source_status ++
        [(name, match error with | some _ => "error" | none => "completed")] }
    if truthyStr error then
      { t1 with errors := t1.errors ++ [name ++ ": " ++ error.getD ""] }
    else if used_batch then t1
    else
      let sv := save_jobs t1.db results
      { t1 with
        jobs_found := t1.jobs_found + results.length,
        new_jobs_saved := t1.new_jobs_saved + sv.2,
        db := sv.1 }

/-- SearchManager._run_search, completion phase, sequentialised in completion
order: process every worker result, then set the terminal status exactly as
the source does (status is completed whether or not errors is empty); with the
cancellation flag set the loop stops with status cancelled instead. -/
def run_search (db0 : List DbRow)
    (sources : List (String × Except String (List Job) × Bool))
    (cancelled : Bool) : TaskState :=
  let init : TaskState :=
    { status := "running", errors := [], completed_sources := 0, jobs_found := 0,
      new_jobs_saved := 0, source_status := [], db := db0 }
  if cancelled then { init with status := "cancelled" }
  else
    let final := sources.foldl
      (fun t s => process_completion t (fetch_from_source s.1 s.2.1 s.2.2)) init
    { final with status := if final.errors = [] then "completed" else "completed" }

theorem process_completion_completed_sources (t : TaskState)
    (w : String × List Job × Option String × Bool) :
    (process_completion t w).completed_sources = t.completed_sources + 1 := by
  obtain ⟨name, results, error, ub⟩ := w
  cases error with
  | none => cases ub with
            | false => rfl
            | true => rfl
  | some e =>
    by_cases he : e = ""
    · subst he
      cases ub with
      | false => rfl
      | true => rfl
    · simp only [process_completion]
      rw [if_pos (by simp [truthyStr, he])]

theorem process_completion_errors_mono (t : TaskState)
    (w : String × List Job × Option String × Bool) (x : String)
    (hx : x ∈ t.errors) : x ∈ (process_completion t w).errors := by
  obtain ⟨name, results, error, ub⟩ := w
  cases error with
  | none => cases ub with
            | false => exact hx
            | true => exact hx
  | some e =>
    by_cases he : e = ""
    · subst he
      cases ub with
      | false => exact hx
      | true => exact hx
    · simp only [process_completion]
      rw [if_pos (by simp [truthyStr, he])]
      exact List.mem_append_left _ hx

theorem process_completion_status_mono (t : TaskState)
    (w : String × List Job × Option String × Bool) (x : String × String)
    (hx : x ∈ t.source_status) : x ∈ (process_completion t w).source_status := by
  obtain ⟨name, results, error, ub⟩ := w
  cases error with
  | none => cases ub with
            | false => exact List.mem_append_left _ hx
            | true => exact List.mem_append_left _ hx
  | some e =>
    by_cases he : e = ""
    · subst he
      cases ub with
      | false => exact List.mem_append_left _ hx
      | true => exact List.mem_append_left _ hx
    · simp only [process_completion]
      rw [if_pos (by simp [truthyStr, he])]
      exact List.mem_append_left _ hx

theorem foldl_errors_mono (l : List (String × Except String (List Job) × Bool))
    (t : TaskState) (x : String) (hx : x ∈ t.errors) :
    x ∈ (l.foldl (fun t s => process_completion t (fetch_from_source s.1 s.2.1 s.2.2)) t).errors := by
  induction l generalizing t with
  | nil => exact hx
  | cons hd tl ih =>
    rw [List.foldl_cons]
    exact ih _ (process_completion_errors_mono t _ x hx)

theorem foldl_status_mono (l : List (String × Except String (List Job) × Bool))
    (t : TaskState) (x : String × String) (hx : x ∈ t.source_status) :
    x ∈ (l.foldl (fun t s => process_completion t (fetch_from_source s.1 s.2.1 s.2.2)) t).source_status := by
  induction l generalizing t with
  | nil => exact hx
  | cons hd tl ih =>
    rw [List.foldl_cons]
    exact ih _ (process_completion_status_mono t _ x hx)

theorem foldl_completed_sources (l : List (String × Except String (List Job) × Bool))
    (t : TaskState) :
    (l.foldl (fun t s => process_completion t (fetch_from_source s.1 s.2.1 s.2.2)) t).completed_sources =
      t.completed_sources + l.length := by
  induction l generalizing t with
  | nil => rfl
  | cons hd tl ih =>
    rw [List.foldl_cons, ih, process_completion_completed_sources]
    simp only [List.length_cons]
    omega

theorem foldl_error_recorded (l : List (String × Except String (List Job) × Bool))
    (t : TaskState) (name e : String) (ub : Bool)
    (hmem : (name, Except.error e, ub) ∈ l) :
    (name, "error") ∈ (l.foldl (fun t s => process_completion t (fetch_from_source s.1 s.2.1 s.2.2)) t).source_status ∧
    (e ≠ "" → (name ++ ": " ++ e) ∈ (l.foldl (fun t s => process_completion t (fetch_from_source s.1 s.2.1 s.2.2)) t).errors) := by
  induction l generalizing t with
  | nil => cases hmem
  | cons hd tl ih =>
    rw [List.foldl_cons]
    rcases List.mem_cons.mp hmem with heq | ht
    · rw [← heq]
      constructor
      · apply foldl_status_mono
        show _ ∈ (process_completion t (fetch_from_source name (Except.error e) ub)).source_status
        simp only [fetch_from_source, process_completion]
        split
        · exact List.mem_append_right _ (List.mem_singleton.mpr rfl)
        · split
          · exact List.mem_append_right _ (List.mem_singleton.mpr rfl)
          · exact List.mem_append_right _ (List.mem_singleton.mpr rfl)
      · intro hne
        apply foldl_errors_mono
        show _ ∈ (process_completion t (fetch_from_source name (Except.error e) ub)).errors
        simp only [fetch_from_source, process_completion]
        rw [if_pos (by simp [truthyStr, hne])]
        exact List.mem_append_right _ (List.mem_singleton.mpr rfl)
    · exact ih _ ht

/-- C8 counterexample: an adapter that raises an exception whose string form
is empty (for example a bare assert) makes the worker hand back an empty
error string; the completion loop gates on truthiness (if error:), so nothing
is appended to task.errors — the claim that every raising adapter gets a
formatted string appended is false at this input (its source entry still
records the error). -/
theorem c8_error_append_claim_counterexample :
    ¬ (∀ (name e : String) (ub : Bool),
        (name, Except.error e, ub) ∈
          ([("X", Except.error "", false)] :
            List (String × Except String (List Job) × Bool)) →
        (name ++ ": " ++ e) ∈
          (run_search [] [("X", Except.error "", false)] false).errors) := by
  intro h
  have hmem := h "X" "" false (List.mem_singleton.mpr rfl)
  have hempty : (run_search [] [("X", Except.error "", false)] false).errors = [] := rfl
  rw [hempty] at hmem
  cases hmem

/-- Claim C8 (amended): with the cancellation flag unset, a per-adapter
failure never fails the search: the error is always recorded on the failing
source's entry; the formatted string is appended to task.errors whenever the
exception's string form is non-empty (an exception with an empty message is
falsy under the if error: gate and appends nothing); every worker is still
processed (completed_sources reaches the source count); and the terminal
status is completed whether or not any errors occurred. -/
theorem c8_adapter_failure_isolated_amended (db0 : List DbRow)
    (sources : List (String × Except String (List Job) × Bool)) :
    (run_search db0 sources false).status = "completed" ∧
    (run_search db0 sources false).completed_sources = sources.length ∧
    (∀ (name e : String) (ub : Bool), (name, Except.error e, ub) ∈ sources →
      (name, "error") ∈ (run_search db0 sources false).source_status ∧
      (e ≠ "" → (name ++ ": " ++ e) ∈ (run_search db0 sources false).errors)) := by
  refine ⟨?_, ?_, ?_⟩
  · show (if (sources.foldl (fun t s => process_completion t (fetch_from_source s.1 s.2.1 s.2.2))
        { status := "running", errors := [], completed_sources := 0, jobs_found := 0,
          new_jobs_saved := 0, source_status := [], db := db0 }).errors = []
      then "completed" else "completed") = "completed"
    split <;> rfl
  · show (sources.foldl (fun t s => process_completion t (fetch_from_source s.1 s.2.1 s.2.2))
        { status := "running", errors := [], completed_sources := 0, jobs_found := 0,
          new_jobs_saved := 0, source_status := [], db := db0 }).completed_sources =
      sources.length
    rw [foldl_completed_sources]
    simp
  · intro name e ub hmem
    exact foldl_error_recorded sources _ name e ub hmem

/-- Witness for the amended C8: two adapters, one failing with a non-empty
message; status stays completed, both completions are counted, and the
failure is recorded in both places. -/
theorem c8_adapter_failure_isolated_amended_witness :
    let srcs : List (String × Except String (List Job) × Bool) :=
      [("Remotive", Except.ok [], false), ("Reed", Except.error "boom", false)]
    (run_search [] srcs false).status = "completed" ∧
    (run_search [] srcs false).completed_sources = 2 ∧
    (("Reed", "error") ∈ (run_search [] srcs false).source_status ∧
      ("Reed" ++ ": " ++ "boom") ∈ (run_search [] srcs false).errors) := by
  intro srcs
  have h := c8_adapter_failure_isolated_amended [] srcs
  have h2 := h.2.2 "Reed" "boom" false (by simp [srcs])
  exact ⟨h.1, h.2.1, h2.1, h2.2 (by decide)⟩

end JobSearch
